import Mathlib

/-!
Verification of the path-scoped file-tree operations layer of the
`file-manager` repository (`src/utils/files.ts` and `src/lib/config.ts`).

The TypeScript code is shallowly embedded:

* JS strings are Lean `String`s; `s.split(sep)` is `splitOnChar`;
  `arr.join("/")` is `joinSegs`.
* `name.replace(/[^a-zA-Z0-9._-]/g, "_")` is `sanitizeSegment`.
* Node's `path.join(root, p)` (join followed by normalization of `.`, `..`
  and empty segments) is `joinPath`, operating on the root given as a list
  of absolute-path segments.
* The filesystem is an in-memory tree `FSNode`; directories carry a
  `readable` flag so that environmental read failures of `readdir` can be
  expressed.  `birthtime` values are abstract `Nat` clocks.
* Operations that can throw return `Except`; the state is passed
  explicitly.  For `listFiles`, `createFolder`, `getFile`, `deleteFile`
  and `moveFile` every throw happens before any mutation, so
  `Except.error` leaves the caller's filesystem state unchanged;
  `saveFile` can mutate (its `mkdir`) and then throw (its write), so it
  returns the filesystem state alongside its `Except` result.
-/

namespace FM

/-- Characters admitted by the sanitizer regex `[^a-zA-Z0-9._-]` in
`files.ts`: ASCII letters, digits, `.`, `_`, `-`. -/
def allowedChar (c : Char) : Bool :=
  c.isAlphanum || c == '.' || c == '_' || c == '-'

/-- Embedding of `name.replace(/[^a-zA-Z0-9._-]/g, "_")`: every character
outside the allowed set is replaced by `_`, character by character. -/
def sanitizeSegment (s : String) : String :=
  ⟨s.data.map (fun c => if allowedChar c then c else '_')⟩

/-- Auxiliary splitter: JS `String.prototype.split(sep)` restricted to a
single-character separator, on the underlying character list. -/
def splitChars (sep : Char) : List Char → List Char → List String
  | [], cur => [⟨cur.reverse⟩]
  | c :: rest, cur =>
    if c = sep then (⟨cur.reverse⟩ : String) :: splitChars sep rest []
    else splitChars sep rest (c :: cur)

/-- JS `s.split(sep)` for a one-character separator.  `"".split(sep)`
yields `[""]`, `"a/".split('/')` yields `["a", ""]`, exactly as in JS. -/
def splitOnChar (sep : Char) (s : String) : List String :=
  splitChars sep s.data []

/-- JS `arr.join("/")`. -/
def joinSegs : List String → String
  | [] => ""
  | [s] => s
  | s :: rest => s ++ "/" ++ joinSegs rest

/-- Embedding of `p.split('/').map(seg => seg.replace(/[^a-zA-Z0-9._-]/g, "_")).join('/')`,
the per-segment sanitization used by `getFile`, `deleteFile` and
`moveFile` in `files.ts`. -/
def sanitizePath (p : String) : String :=
  joinSegs ((splitOnChar '/' p).map sanitizeSegment)

/-- One normalization step of Node's `path.join`: empty and `.` segments
are dropped, `..` removes the last component (saturating at the
filesystem root), anything else is appended. -/
def stepSeg (acc : List String) (seg : String) : List String :=
  if seg = "" || seg = "." then acc
  else if seg = ".." then acc.dropLast
  else acc ++ [seg]

/-- Embedding of Node's `path.join(root, p)` where the absolute path
`root` is represented by its list of segments: the joined path is
normalized segment by segment. -/
def joinPath (root : List String) (p : String) : List String :=
  (splitOnChar '/' p).foldl stepSeg root

/-- Boolean "is an initial portion of": `isUnder root p` states that the
absolute path `p` lies in the subtree of `root` (or is `root` itself). -/
def isUnder : List String → List String → Bool
  | [], _ => true
  | _ :: _, [] => false
  | a :: as, b :: bs => if a = b then isUnder as bs else false

/-! ### The filesystem model -/

/-- A node of the in-memory filesystem: a regular file with a size and a
birthtime, or a directory with a birthtime, a readability flag (false
models an environmental `readdir` failure such as `EACCES`) and a list of
named children. -/
inductive FSNode where
  | file (size : Nat) (birth : Nat)
  | dir (birth : Nat) (readable : Bool) (children : List (String × FSNode))

/-- First-match association-list read over a directory's children. -/
def getC : List (String × FSNode) → String → Option FSNode
  | [], _ => none
  | (k, v) :: rest, n => if k = n then some v else getC rest n

/-- Replace the value at a key (first match), or append a new binding. -/
def setC : List (String × FSNode) → String → FSNode → List (String × FSNode)
  | [], n, v => [(n, v)]
  | (k, w) :: rest, n, v =>
    if k = n then (k, v) :: rest else (k, w) :: setC rest n v

/-- Remove the binding at a key.  Real directories have distinct entry
names, so this is the ordinary single-entry removal. -/
def delC (ch : List (String × FSNode)) (n : String) : List (String × FSNode) :=
  ch.filter (fun p => p.1 ≠ n)

/-- Resolve an absolute path (as segments) in the tree; `none` models
`ENOENT`/`ENOTDIR`. -/
def look : FSNode → List String → Option FSNode
  | n, [] => some n
  | .file _ _, _ :: _ => none
  | .dir _ _ ch, s :: rest =>
    match getC ch s with
    | none => none
    | some c => look c rest

/-- Embedding of `mkdir(p, { recursive: true })`: create every missing
directory along the path; `none` models the error thrown when a regular
file occupies the path or one of its components. -/
def mkdirp : FSNode → List String → Option FSNode
  | .file _ _, [] => none
  | .dir b r ch, [] => some (.dir b r ch)
  | .file _ _, _ :: _ => none
  | .dir b r ch, s :: rest =>
    let child := match getC ch s with
      | some c => c
      | none => .dir 0 true []
    match mkdirp child rest with
    | none => none
    | some c2 => some (.dir b r (setC ch s c2))

/-- Embedding of `unlink` / `rm(p, { recursive: true })`: remove the node
at the path (both remove the whole subtree; `unlink` is only invoked on
files).  Removing the filesystem root `[]` is not reachable from the
operations below and is modelled as the identity. -/
def removeAt : FSNode → List String → FSNode
  | n, [] => n
  | .file sz b, _ :: _ => .file sz b
  | .dir b r ch, [s] => .dir b r (delC ch s)
  | .dir b r ch, s :: rest =>
    match getC ch s with
    | none => .dir b r ch
    | some c => .dir b r (setC ch s (removeAt c (rest)))

/-- Embedding of `Bun.write(p, data)` where only the byte length of the
data is tracked: overwrite the file at `p` (keeping its birthtime) or
create it with birthtime `now`; `none` models the error thrown when `p`
is an existing directory or its parent is missing.  The call sites in
`files.ts` create the parent directory first. -/
def writeFile : FSNode → List String → Nat → Nat → Option FSNode
  | _, [], _, _ => none
  | .file _ _, _ :: _, _, _ => none
  | .dir b r ch, [s], size, now =>
    match getC ch s with
    | some (.dir _ _ _) => none
    | some (.file _ bt) => some (.dir b r (setC ch s (.file size bt)))
    | none => some (.dir b r (setC ch s (.file size now)))
  | .dir b r ch, s :: rest, size, now =>
    match getC ch s with
    | none => none
    | some c =>
      match writeFile c rest size now with
      | none => none
      | some c2 => some (.dir b r (setC ch s c2))

/-- Embedding of `Bun.file(p).exists()`: true exactly when a regular file
is at the path — directories report `false`. -/
def fileExists (fs : FSNode) (p : List String) : Bool :=
  match look fs p with
  | some (.file _ _) => true
  | _ => false

/-! ### Listing assembly -/

/-- The `FileInfo` interface of `files.ts`.  `createdAt` is the abstract
birthtime clock value (the source formats it as an ISO-8601 string, a
bijective rendering that no claim depends on). -/
structure FileInfo where
  name : String
  size : Nat
  createdAt : Nat
  type : String
  isDirectory : Bool
  path : String
deriving DecidableEq, Repr

/-- Character-wise lowercasing (`String.toLower`, restated so that it
evaluates by structural recursion; the two agree on every character the
embedding meets, since `Char.toLower` lowers exactly `A`–`Z`). -/
def lowerStr (s : String) : String :=
  ⟨s.data.map Char.toLower⟩

/-- Embedding of `getFileType` in `files.ts`: the extension is the last
`.`-separated chunk of the name (JS `split('.').pop()`), lowercased, and
looked up in the fixed table, defaulting to `"file"`. -/
def getFileType (filename : String) : String :=
  let ext := lowerStr ((splitOnChar '.' filename).getLastD "")
  match ext with
  | "pdf" => "document"
  | "doc" => "document"
  | "docx" => "document"
  | "txt" => "document"
  | "jpg" => "image"
  | "jpeg" => "image"
  | "png" => "image"
  | "gif" => "image"
  | "webp" => "image"
  | "svg" => "image"
  | "mp4" => "video"
  | "webm" => "video"
  | "mov" => "video"
  | "mp3" => "audio"
  | "wav" => "audio"
  | "ogg" => "audio"
  | "zip" => "archive"
  | "rar" => "archive"
  | "7z" => "archive"
  | "tar" => "archive"
  | "gz" => "archive"
  | "iso" => "archive"
  | _ => "file"

/-- Three-way comparison of character lists by code point. -/
def charsCmp : List Char → List Char → Ordering
  | [], [] => .eq
  | [], _ :: _ => .lt
  | _ :: _, [] => .gt
  | a :: as, b :: bs =>
    if a.toNat < b.toNat then .lt
    else if b.toNat < a.toNat then .gt
    else charsCmp as bs

/-- Three-way comparison of weight lists. -/
def natsCmp : List Nat → List Nat → Ordering
  | [], [] => .eq
  | [], _ :: _ => .lt
  | _ :: _, [] => .gt
  | a :: as, b :: bs =>
    if a < b then .lt
    else if b < a then .gt
    else natsCmp as bs

/-- Primary collation weight of a character under the CLDR root
collation (the collation `localeCompare` uses by default), restricted to
printable ASCII: punctuation and symbols — in the root order, the
connector `_` first, then the dash `-`, then the remaining punctuation,
then the symbols and the currency sign — sort before digits, and digits
before letters; letters are case-folded at this level.  Characters
outside printable ASCII are modelled after all ASCII, by code point;
no claim exercises them. -/
def charWeight (c : Char) : Nat :=
  if c = ' ' then 1
  else if c = '_' then 2
  else if c = '-' then 3
  else if c = ',' then 4
  else if c = ';' then 5
  else if c = ':' then 6
  else if c = '!' then 7
  else if c = '?' then 8
  else if c = '.' then 9
  else if c = '\'' then 10
  else if c = '"' then 11
  else if c = '(' then 12
  else if c = ')' then 13
  else if c = '[' then 14
  else if c = ']' then 15
  else if c = '{' then 16
  else if c = '}' then 17
  else if c = '@' then 18
  else if c = '*' then 19
  else if c = '/' then 20
  else if c = '\\' then 21
  else if c = '&' then 22
  else if c = '#' then 23
  else if c = '%' then 24
  else if c = '`' then 25
  else if c = '^' then 26
  else if c = '+' then 27
  else if c = '<' then 28
  else if c = '=' then 29
  else if c = '>' then 30
  else if c = '|' then 31
  else if c = '~' then 32
  else if c = '$' then 33
  else if c.isDigit then 40 + c.toNat
  else if c.isUpper then 100 + c.toNat + 32
  else if c.isLower then 100 + c.toNat
  else 1000 + c.toNat

/-- Model of `a.localeCompare(b)` under the default (CLDR root)
collation on ASCII names: the primary comparison is by the case-folded
collation weights of `charWeight` (punctuation before digits before
letters, case ignored), and strings equal at the primary level — i.e.
equal up to letter case — are tie-broken at the tertiary level with
lowercase ordered before uppercase, which on such strings is the
reversed code-point comparison of the raw strings. -/
def localeCmp (a b : String) : Ordering :=
  (natsCmp (a.data.map charWeight) (b.data.map charWeight)).then
    (charsCmp b.data a.data)

/-- Embedding of the sort comparator in `listFiles`: directories first,
then `localeCompare` on names. -/
def cmpF (a b : FileInfo) : Ordering :=
  if a.isDirectory && !b.isDirectory then .lt
  else if !a.isDirectory && b.isDirectory then .gt
  else localeCmp a.name b.name

/-- The non-strict order induced by the comparator (`compare(a,b) <= 0`),
the relation the JS sort orders the result by. -/
def leF (a b : FileInfo) : Prop := cmpF a b ≠ .gt

instance : DecidableRel leF := fun a b =>
  inferInstanceAs (Decidable (cmpF a b ≠ .gt))

/-- The `FileInfo` record `listFiles` pushes for one directory entry
(name `n`, stats `node`) listed under the client path `sub`. -/
def mkInfo (sub : String) (n : String) (node : FSNode) : FileInfo :=
  match node with
  | .file sz bt =>
    { name := n, size := sz, createdAt := bt, type := getFileType n
      isDirectory := false
      path := if sub = "" then n else sub ++ "/" ++ n }
  | .dir bt _ _ =>
    { name := n, size := 0, createdAt := bt, type := "folder"
      isDirectory := true
      path := if sub = "" then n else sub ++ "/" ++ n }

/-! ### The operations of `files.ts`

Each operation takes the active root (the absolute path of
`getDataDir()`, as segments) and the current filesystem, and returns the
new filesystem together with its result.  `Except.error ()` models an
exception propagating to the caller. -/

/-- Embedding of `ensureDataDir`: `mkdir(root, { recursive: true })`. -/
def ensureDataDir (root : List String) (fs : FSNode) : Option FSNode :=
  mkdirp fs root

/-- Embedding of `listFiles(subPath)`.  Note that `subPath` is joined
onto the root *without any sanitization* (`join(root, subPath)` in the
source).  The `try`/`catch` around `readdir`+`stat` turns a missing
target, a non-directory target or an unreadable directory into `[]`. -/
def listFiles (root : List String) (fs : FSNode) (subPath : String) :
    Except Unit (FSNode × List FileInfo) :=
  match ensureDataDir root fs with
  | none => .error ()
  | some fs1 =>
    let targetDir := joinPath root subPath
    match look fs1 targetDir with
    | some (.dir _ true ch) =>
      let entries := ch.filter (fun p => p.1 ≠ ".gitkeep")
      let files := entries.map (fun p => mkInfo subPath p.1 p.2)
      .ok (fs1, files.insertionSort leF)
    | _ => .ok (fs1, [])

/-- Embedding of `saveFile(name, data, subPath)` (only the byte length of
`data` is tracked).  The name is sanitized; `subPath` is joined onto the
root unsanitized, the target directory is created, and the file is
written at `join(targetDir, safeName)`.  The filesystem state is
returned in every case, because the `mkdir` mutation precedes the write:
a throwing `Bun.write` (second component `Except.error ()`) leaves the
directory it created behind. -/
def saveFile (root : List String) (fs : FSNode) (now : Nat)
    (name : String) (dataLen : Nat) (subPath : String) :
    FSNode × Except Unit FileInfo :=
  match ensureDataDir root fs with
  | none => (fs, .error ())
  | some fs1 =>
    let safeName := sanitizeSegment name
    let targetDir := if subPath = "" then root else joinPath root subPath
    match mkdirp fs1 targetDir with
    | none => (fs1, .error ())
    | some fs2 =>
      let filePath := joinPath targetDir safeName
      match writeFile fs2 filePath dataLen now with
      | none => (fs2, .error ())
      | some fs3 =>
        match look fs3 filePath with
        | some (.file sz bt) =>
          (fs3, .ok
            { name := safeName, size := sz, createdAt := bt
              type := getFileType safeName, isDirectory := false
              path := if subPath = "" then safeName
                      else subPath ++ "/" ++ safeName })
        | _ => (fs3, .error ())

/-- Embedding of `createFolder(name, subPath)`: the name is sanitized,
`subPath` is not, and the target directory (with any missing
intermediates) is created by `mkdir(..., { recursive: true })`. -/
def createFolder (root : List String) (fs : FSNode)
    (name : String) (subPath : String) :
    Except Unit (FSNode × FileInfo) :=
  match ensureDataDir root fs with
  | none => .error ()
  | some fs1 =>
    let safeName := sanitizeSegment name
    let targetDir := if subPath = "" then joinPath root safeName
                     else joinPath (joinPath root subPath) safeName
    match mkdirp fs1 targetDir with
    | none => .error ()
    | some fs2 =>
      match look fs2 targetDir with
      | some (.dir bt _ _) =>
        .ok (fs2,
          { name := safeName, size := 0, createdAt := bt
            type := "folder", isDirectory := true
            path := if subPath = "" then safeName
                    else subPath ++ "/" ++ safeName })
      | _ => .error ()

/-- Embedding of `getFile(filePath)`: the path is sanitized segment by
segment, and the file at the resolved path is returned (size and
birthtime stand in for the `BunFile` handle), or `none` when nothing is
there or a directory is there. -/
def getFile (root : List String) (fs : FSNode) (filePath : String) :
    Except Unit (FSNode × Option (Nat × Nat)) :=
  match ensureDataDir root fs with
  | none => .error ()
  | some fs1 =>
    let fullPath := joinPath root (sanitizePath filePath)
    match look fs1 fullPath with
    | some (.file sz bt) => .ok (fs1, some (sz, bt))
    | _ => .ok (fs1, none)

/-- Embedding of `deleteFile(filePath)`: the path is sanitized segment by
segment; `stat` decides between `rm(..., { recursive: true })` and
`unlink`, and the surrounding `try`/`catch` turns a missing target into
`false`. -/
def deleteFile (root : List String) (fs : FSNode) (filePath : String) :
    Except Unit (FSNode × Bool) :=
  match ensureDataDir root fs with
  | none => .error ()
  | some fs1 =>
    let fullPath := joinPath root (sanitizePath filePath)
    match look fs1 fullPath with
    | some (.dir _ _ _) => .ok (removeAt fs1 fullPath, true)
    | some (.file _ _) => .ok (removeAt fs1 fullPath, true)
    | none => .ok (fs1, false)

/-- Embedding of `moveFile(sourcePath, destPath)`: both paths are
sanitized segment by segment; if `Bun.file(fullSource).exists()` (false
for directories) the destination's parent is created, the bytes are
copied, the source is unlinked and `true` is returned; otherwise
`false`.  Failures inside the `try` block yield `false`. -/
def moveFile (root : List String) (fs : FSNode) (now : Nat)
    (sourcePath : String) (destPath : String) :
    Except Unit (FSNode × Bool) :=
  match ensureDataDir root fs with
  | none => .error ()
  | some fs1 =>
    let fullSource := joinPath root (sanitizePath sourcePath)
    let fullDest := joinPath root (sanitizePath destPath)
    match look fs1 fullSource with
    | some (.file sz _) =>
      (match mkdirp fs1 fullDest.dropLast with
       | none => .ok (fs1, false)
       | some fs2 =>
         match writeFile fs2 fullDest sz now with
         | none => .ok (fs2, false)
         | some fs3 => .ok (removeAt fs3 fullSource, true))
    | _ => .ok (fs1, false)

/-- Errors surfaced by the HTTP route handlers in `index.ts`. -/
inductive ApiError where
  | invalidPath
  | serverFailure
deriving DecidableEq

/-- Embedding of the `POST /api/folders` handler in `index.ts`: a missing
or empty `name` is rejected with a 400 response (`"Folder name is
required"`, the `InvalidPath` rejection of the specification) before any
filesystem call; otherwise `createFolder` runs, its exceptions becoming a
generic server failure.  An `ApiError` result means the filesystem was
not touched. -/
def handleCreateFolder (root : List String) (fs : FSNode)
    (name : String) (subPath : String) :
    Except ApiError (FSNode × FileInfo) :=
  if name = "" then .error .invalidPath
  else
    match createFolder root fs name subPath with
    | .error () => .error .serverFailure
    | .ok r => .ok r

/-! ### The configuration store of `config.ts` -/

/-- A persisted storage location. -/
structure Location where
  name : String
  path : String
deriving DecidableEq, Repr

/-- The persisted singleton configuration. -/
structure Config where
  locations : List Location
  activeLocationIndex : Int
deriving DecidableEq, Repr

/-- A `Partial<Config>` value: a JSON object in which either field may be
absent.  (The spread `{ ...current, ...newConfig }` keeps the current
field exactly when the update omits it.) -/
structure ConfigPatch where
  locations : Option (List Location)
  activeLocationIndex : Option Int
deriving DecidableEq, Repr

/-- The value of `homedir()`, an environment constant no claim depends
on. -/
def userHome : String := "/home/hades"

/-- The built-in `DEFAULT_LOCATIONS` of `config.ts`. -/
def defaultLocations : List Location :=
  [ { name := "Project Data", path := "/home/hades/project/filemanager/data" },
    { name := "Ramadhan 2026", path := "/home/hades/2026-ramadhan" },
    { name := "Home Storage", path := userHome } ]

/-- Process-wide configuration state: the in-memory cache (`configCache`)
and the contents of `config.json` on disk (`none` when the file is
absent; a stored object may in principle lack fields, hence
`ConfigPatch`). -/
structure ConfigState where
  cache : Option Config
  disk : Option ConfigPatch
deriving DecidableEq, Repr

/-- `JSON.stringify` of a full configuration, as stored on disk. -/
def toDisk (c : Config) : ConfigPatch :=
  { locations := some c.locations
    activeLocationIndex := some c.activeLocationIndex }

/-- The spread `{ ...current, ...newConfig }`. -/
def mergeConfig (current : Config) (p : ConfigPatch) : Config :=
  { locations := p.locations.getD current.locations
    activeLocationIndex :=
      p.activeLocationIndex.getD current.activeLocationIndex }

/-- Embedding of `loadConfig`.  `wOk` says whether a `Bun.write` to
`config.json` would succeed (the environment).  Cache hits return the
cache; otherwise the file is read (`data.locations || DEFAULT_LOCATIONS`,
`data.activeLocationIndex ?? 0`); an absent file installs and persists
the default, a failing write of the default being caught and logged
(cache still set, disk unchanged). -/
def loadConfig (wOk : Bool) (s : ConfigState) : ConfigState × Config :=
  match s.cache with
  | some c => (s, c)
  | none =>
    match s.disk with
    | some data =>
      let c : Config :=
        { locations := data.locations.getD defaultLocations
          activeLocationIndex := data.activeLocationIndex.getD 0 }
      ({ s with cache := some c }, c)
    | none =>
      let c : Config := { locations := defaultLocations, activeLocationIndex := 0 }
      if wOk then ({ cache := some c, disk := some (toDisk c) }, c)
      else ({ s with cache := some c }, c)

/-- Embedding of `saveConfig(newConfig)`: load the current configuration,
merge the update over it, write the full merged object to `config.json`
and only then update the cache.  A failing write throws: the error is
returned and the cache is exactly as `loadConfig` left it. -/
def saveConfig (wOk : Bool) (s : ConfigState) (p : ConfigPatch) :
    ConfigState × Except Unit Config :=
  let r := loadConfig wOk s
  let updated := mergeConfig r.2 p
  if wOk then
    ({ cache := some updated, disk := some (toDisk updated) }, .ok updated)
  else
    (r.1, .error ())

/-- Embedding of `getActiveLocation`: index into `locations`, falling
back to the first default location when out of bounds. -/
def getActiveLocation (wOk : Bool) (s : ConfigState) : ConfigState × Location :=
  let r := loadConfig wOk s
  match (if 0 ≤ r.2.activeLocationIndex then
           r.2.locations.get? r.2.activeLocationIndex.toNat
         else none) with
  | some loc => (r.1, loc)
  | none => (r.1, defaultLocations.getD 0 ⟨"", ""⟩)

/-! ### Derived predicates and concrete fixtures -/

/-- `dirAt fs p` — a directory sits at path `p`. -/
def dirAt (fs : FSNode) (p : List String) : Bool :=
  match look fs p with
  | some (.dir _ _ _) => true
  | _ => false

/-- A readable directory sits at path `p`: exactly the condition under
which the `readdir` in `listFiles` succeeds. -/
def readableDirAt (fs : FSNode) (p : List String) : Bool :=
  match look fs p with
  | some (.dir _ true _) => true
  | _ => false

/-- The listing order the program produces: directories before files
and, within a group, names in the order of the modelled `localeCompare`
collation. -/
def entryOrderedLoc (a b : FileInfo) : Prop :=
  (b.isDirectory = true → a.isDirectory = true) ∧
  (a.isDirectory = b.isDirectory → localeCmp a.name b.name ≠ .gt)

/-- Fixture: a host filesystem whose directory `/srv/data` is used as the
active root, with a file `/srv/secret.txt` sitting outside that root. -/
def hostFS : FSNode :=
  .dir 0 true
    [("srv", .dir 0 true
      [ ("data", .dir 0 true [("f.txt", .file 3 5)]),
        ("secret.txt", .file 7 9) ])]

/-- `hostFS` after `/srv/secret.txt` has been removed. -/
def hostFSNoSecret : FSNode :=
  .dir 0 true
    [("srv", .dir 0 true
      [ ("data", .dir 0 true [("f.txt", .file 3 5)]) ])]

/-- Fixture: the active root `/srv/data` containing a single file, with
nothing else on the host. -/
def smallFS : FSNode :=
  .dir 0 true
    [("srv", .dir 0 true
      [ ("data", .dir 0 true [("f.txt", .file 3 5)]) ])]

/-- `smallFS` after the root directory `/srv/data` itself has been
removed. -/
def smallFSNoRoot : FSNode :=
  .dir 0 true [("srv", .dir 0 true [])]

/-- Fixture: a root directory containing an on-disk entry whose name
holds a space, i.e. a character outside `[A-Za-z0-9._-]`. -/
def oddNameFS : FSNode :=
  .dir 0 true [("d", .dir 0 true [("a b.txt", .file 1 1)])]

/-- Fixture: a root directory with several entries of mixed case and
kind plus a `.gitkeep`, exercising the listing order. -/
def collationFS : FSNode :=
  .dir 0 true [("d", .dir 0 true
    [ ("bee.txt", .file 1 1), ("Zebra", .dir 2 true []),
      (".gitkeep", .file 0 0), ("a11.txt", .file 5 5),
      ("apple", .dir 3 true []), ("a_1.txt", .file 6 6),
      ("Ant.txt", .file 4 4) ])]

/-- Fixture: a root directory holding only the two files whose relative
order distinguishes the default collation from code-point order of the
lowercased names. -/
def punctFS : FSNode :=
  .dir 0 true [("d", .dir 0 true
    [ ("a11.txt", .file 1 1), ("a_1.txt", .file 2 2) ])]

/-- Fixture: an empty root directory `/d`. -/
def plainFS : FSNode :=
  .dir 0 true [("d", .dir 0 true [])]

/-- `plainFS` after a directory `newdir` has been created under `/d`. -/
def plainFSNewdir : FSNode :=
  .dir 0 true [("d", .dir 0 true [("newdir", .dir 0 true [])])]

/-- Fixture: a regular file occupies the path `/d` that the
configuration designates as the active root. -/
def rootFileFS : FSNode :=
  .dir 0 true [("d", .file 1 1)]

/-! ### Lemmas about the sanitizer -/

theorem sanitizeSegment_of_allowed {s : String}
    (h : s.data.all allowedChar = true) : sanitizeSegment s = s := by
  unfold sanitizeSegment
  have h2 : s.data.map (fun c => if allowedChar c then c else '_') =
      s.data.map id := by
    apply List.map_congr_left
    intro c hc
    simp only [List.all_eq_true] at h
    simp [h c hc]
  rw [h2, List.map_id]

theorem sanitizeSegment_empty_iff {s : String} :
    sanitizeSegment s = "" ↔ s = "" := by
  constructor
  · intro h
    cases s with
    | mk d =>
      have hd : d.map (fun c => if allowedChar c then c else '_') = [] :=
        congrArg String.data h
      have hnil : d = [] := List.map_eq_nil_iff.mp hd
      subst hnil
      rfl
  · intro h; subst h; rfl

/-! ### Lemmas about splitting and joining -/

theorem splitChars_append (sep : Char) (xs ys : List Char) (cur : List Char) :
    splitChars sep (xs ++ sep :: ys) cur =
      splitChars sep xs cur ++ splitChars sep ys [] := by
  induction xs generalizing cur with
  | nil => simp [splitChars]
  | cons c rest ih =>
    by_cases hc : c = sep
    · subst hc
      simp [splitChars, ih]
    · simp [splitChars, hc, ih]

theorem splitChars_no_sep (sep : Char) (xs : List Char) (cur : List Char)
    (h : ∀ c ∈ xs, c ≠ sep) :
    splitChars sep xs cur = [⟨cur.reverse ++ xs⟩] := by
  induction xs generalizing cur with
  | nil => simp [splitChars]
  | cons c rest ih =>
    have hc : c ≠ sep := h c (List.mem_cons_self c rest)
    have hrest : ∀ x ∈ rest, x ≠ sep := fun x hx => h x (List.mem_cons_of_mem c hx)
    rw [splitChars, if_neg hc, ih (c :: cur) hrest]
    simp

theorem splitOnChar_append_of_no_sep (sep : Char) (a b : String)
    (hb : ∀ c ∈ b.data, c ≠ sep) :
    splitOnChar sep (a ++ String.singleton sep ++ b) =
      splitOnChar sep a ++ [b] := by
  unfold splitOnChar
  have hdata : (a ++ String.singleton sep ++ b).data = a.data ++ sep :: b.data := by
    simp [String.singleton]
  rw [hdata, splitChars_append, splitChars_no_sep sep b.data [] hb]
  rfl

theorem splitOnChar_no_sep (sep : Char) (s : String)
    (h : ∀ c ∈ s.data, c ≠ sep) : splitOnChar sep s = [s] := by
  unfold splitOnChar
  rw [splitChars_no_sep sep s.data [] h]
  rfl

/-- Allowed characters exclude the path separator. -/
theorem allowedChar_ne_slash {c : Char} (h : allowedChar c = true) : c ≠ '/' := by
  intro he
  subst he
  exact absurd h (by decide)

/-! ### Lemmas about path containment -/

theorem isUnder_append (r q : List String) : isUnder r (r ++ q) = true := by
  induction r with
  | nil => rfl
  | cons a as ih => simp [isUnder, ih]

theorem isUnder_iff_exists (r p : List String) :
    isUnder r p = true ↔ ∃ t, p = r ++ t := by
  constructor
  · intro h
    induction r generalizing p with
    | nil => exact ⟨p, rfl⟩
    | cons a as ih =>
      cases p with
      | nil => simp [isUnder] at h
      | cons b bs =>
        by_cases hab : a = b
        · subst hab
          simp only [isUnder, if_pos rfl] at h
          obtain ⟨t, ht⟩ := ih bs h
          exact ⟨t, by simp [ht]⟩
        · simp [isUnder, hab] at h
  · rintro ⟨t, rfl⟩
    exact isUnder_append r t

theorem isUnder_extend {r p : List String} (h : isUnder r p = true) (q : List String) :
    isUnder r (p ++ q) = true := by
  obtain ⟨t, rfl⟩ := (isUnder_iff_exists r p).mp h
  rw [List.append_assoc]
  exact isUnder_append r (t ++ q)

/-- Folding normalization steps over segments that are never `..` keeps
the accumulated path inside any subtree it already lies in. -/
theorem isUnder_foldl_stepSeg {r : List String} (segs : List String)
    (hseg : ∀ s ∈ segs, s ≠ "..") :
    ∀ acc, isUnder r acc = true → isUnder r (segs.foldl stepSeg acc) = true := by
  induction segs with
  | nil => intro acc h; simpa using h
  | cons s rest ih =>
    intro acc h
    have hs : s ≠ ".." := hseg s (List.mem_cons_self s rest)
    have hrest : ∀ x ∈ rest, x ≠ ".." := fun x hx => hseg x (List.mem_cons_of_mem s hx)
    simp only [List.foldl_cons]
    apply ih hrest
    have hstep : stepSeg acc s = acc ∨ stepSeg acc s = acc ++ [s] := by
      unfold stepSeg
      by_cases h1 : s = ""
      · exact Or.inl (by simp [h1])
      · by_cases h2 : s = "."
        · exact Or.inl (by simp [h1, h2])
        · exact Or.inr (by simp [h1, h2, hs])
    rcases hstep with hstep | hstep
    · rw [hstep]; exact h
    · rw [hstep]; exact isUnder_extend h [s]

theorem isUnder_refl (p : List String) : isUnder p p = true := by
  simpa using isUnder_append p []

/-! ### Lemmas about the filesystem tree -/

theorem getC_setC_self (ch : List (String × FSNode)) (n : String) (v : FSNode) :
    getC (setC ch n v) n = some v := by
  induction ch with
  | nil => simp [setC, getC]
  | cons p rest ih =>
    by_cases h : p.1 = n
    · simp [setC, getC, h]
    · simp [setC, getC, h, ih]

theorem setC_getC_same {ch : List (String × FSNode)} {n : String} {v : FSNode}
    (h : getC ch n = some v) : setC ch n v = ch := by
  induction ch with
  | nil => simp [getC] at h
  | cons p rest ih =>
    by_cases hp : p.1 = n
    · simp only [getC, if_pos hp] at h
      cases h
      cases p with
      | mk k w => simp_all [setC]
    · simp only [getC, if_neg hp] at h
      cases p with
      | mk k w =>
        simp only [setC]
        rw [if_neg (by simpa using hp), ih h]

theorem getC_delC_self (ch : List (String × FSNode)) (n : String) :
    getC (delC ch n) n = none := by
  induction ch with
  | nil => simp [delC, getC]
  | cons p rest ih =>
    by_cases h : p.1 = n
    · simpa [delC, h] using ih
    · simpa [delC, getC, h] using ih

/-- After removal, nothing remains at the removed (nonempty) path. -/
theorem look_removeAt_self (fs : FSNode) (q : List String) (hq : q ≠ []) :
    look (removeAt fs q) q = none := by
  induction q generalizing fs with
  | nil => exact absurd rfl hq
  | cons s rest ih =>
    cases fs with
    | file sz b => cases rest <;> simp [removeAt, look]
    | dir b r ch =>
      cases rest with
      | nil =>
        simp only [removeAt, look]
        rw [getC_delC_self]
      | cons t ts =>
        simp only [removeAt]
        cases hg : getC ch s with
        | none => simp [look, hg]
        | some c =>
          simp only [look, getC_setC_self]
          exact ih c (by simp)

/-- Destructor for `dirAt` along a path step. -/
theorem dirAt_cons {b : Nat} {r : Bool} {ch : List (String × FSNode)}
    {s : String} {rest : List String}
    (h : dirAt (.dir b r ch) (s :: rest) = true) :
    ∃ c, getC ch s = some c ∧ dirAt c rest = true := by
  unfold dirAt at h
  simp only [look] at h
  cases hg : getC ch s with
  | none => rw [hg] at h; simp at h
  | some c =>
    rw [hg] at h
    refine ⟨c, rfl, ?_⟩
    unfold dirAt
    simpa using h

/-- Constructor for `dirAt` along a path step. -/
theorem dirAt_cons_intro {b : Nat} {r : Bool} {ch : List (String × FSNode)}
    {s : String} {rest : List String} {c : FSNode}
    (hg : getC ch s = some c) (hc : dirAt c rest = true) :
    dirAt (.dir b r ch) (s :: rest) = true := by
  unfold dirAt at hc ⊢
  simp only [look, hg]
  exact hc

/-- `mkdir -p` on a path that already exists as a directory leaves the
tree unchanged. -/
theorem mkdirp_of_dirAt {fs : FSNode} {p : List String}
    (h : dirAt fs p = true) : mkdirp fs p = some fs := by
  induction p generalizing fs with
  | nil =>
    cases fs with
    | file sz b => simp [dirAt, look] at h
    | dir b r ch => rfl
  | cons s rest ih =>
    cases fs with
    | file sz b => simp [dirAt, look] at h
    | dir b r ch =>
      obtain ⟨c, hg, hc⟩ := dirAt_cons h
      simp only [mkdirp, hg, ih hc]
      rw [setC_getC_same hg]

/-- A successful `mkdir -p` leaves a directory at the path. -/
theorem dirAt_mkdirp {fs fs2 : FSNode} {p : List String}
    (h : mkdirp fs p = some fs2) : dirAt fs2 p = true := by
  induction p generalizing fs fs2 with
  | nil =>
    cases fs with
    | file sz b => simp [mkdirp] at h
    | dir b r ch =>
      simp only [mkdirp] at h
      cases h
      rfl
  | cons s rest ih =>
    cases fs with
    | file sz b => simp [mkdirp] at h
    | dir b r ch =>
      simp only [mkdirp] at h
      cases hm : mkdirp (match getC ch s with
        | some c => c
        | none => FSNode.dir 0 true []) rest with
      | none => rw [hm] at h; simp at h
      | some c2 =>
        rw [hm] at h
        simp only [Option.some.injEq] at h
        subst h
        simp only [dirAt, look, getC_setC_self]
        have := ih hm
        simpa [dirAt] using this

/-- Removing a node strictly below `r` keeps the directory at `r`. -/
theorem dirAt_removeAt_append {fs : FSNode} {r t : List String}
    (h : dirAt fs r = true) (ht : t ≠ []) :
    dirAt (removeAt fs (r ++ t)) r = true := by
  induction r generalizing fs with
  | nil =>
    cases fs with
    | file sz b => simp [dirAt, look] at h
    | dir b rd ch =>
      cases t with
      | nil => exact absurd rfl ht
      | cons u us =>
        simp only [List.nil_append]
        cases us with
        | nil => simp [removeAt, dirAt, look]
        | cons v vs =>
          simp only [removeAt]
          cases getC ch u <;> simp [dirAt, look]
  | cons s rs ih =>
    cases fs with
    | file sz b => simp [dirAt, look] at h
    | dir b rd ch =>
      obtain ⟨c, hg, hc⟩ := dirAt_cons h
      have hcons : (s :: rs) ++ t = s :: (rs ++ t) := by simp
      rw [hcons]
      cases hrt : rs ++ t with
      | nil =>
        rcases List.append_eq_nil.mp hrt with ⟨h1, h2⟩
        exact absurd h2 ht
      | cons w ws =>
        have hrm : removeAt (.dir b rd ch) (s :: w :: ws) =
            .dir b rd (setC ch s (removeAt c (w :: ws))) := by
          simp only [removeAt, hg]
        rw [hrm]
        have hih : dirAt (removeAt c (rs ++ t)) rs = true := ih hc
        rw [hrt] at hih
        exact dirAt_cons_intro (getC_setC_self ch s _) hih

/-! ### Lemmas about the comparator -/

theorem then_ne_gt {x y : Ordering} :
    x.then y ≠ .gt ↔ (x = .lt ∨ (x = .eq ∧ y ≠ .gt)) := by
  cases x <;> cases y <;> decide

theorem then_swap (x y : Ordering) :
    (x.then y).swap = x.swap.then y.swap := by
  cases x <;> cases y <;> decide

theorem ne_gt_iff {o : Ordering} : o ≠ .gt ↔ (o = .lt ∨ o = .eq) := by
  cases o <;> decide

theorem charsCmp_swap : ∀ a b : List Char, charsCmp b a = (charsCmp a b).swap
  | [], [] => rfl
  | [], _ :: _ => rfl
  | _ :: _, [] => rfl
  | a :: as, b :: bs => by
    simp only [charsCmp]
    rcases Nat.lt_trichotomy a.toNat b.toNat with h | h | h
    · rw [if_pos h, if_neg (by omega), if_pos h]
      rfl
    · rw [if_neg (by omega), if_neg (by omega), if_neg (by omega),
        if_neg (by omega)]
      exact charsCmp_swap as bs
    · rw [if_pos h, if_neg (by omega), if_pos h]
      rfl

theorem charsCmp_eq_iff : ∀ a b : List Char, charsCmp a b = .eq ↔ a = b
  | [], [] => by simp [charsCmp]
  | [], _ :: _ => by simp [charsCmp]
  | _ :: _, [] => by simp [charsCmp]
  | a :: as, b :: bs => by
    simp only [charsCmp]
    rcases Nat.lt_trichotomy a.toNat b.toNat with h | h | h
    · rw [if_pos h]
      constructor
      · intro hc; cases hc
      · intro hc
        injection hc with h1 h2
        subst h1
        omega
    · have hab : a = b := Char.ext (UInt32.ext h)
      subst hab
      rw [if_neg (by omega), if_neg (by omega)]
      rw [charsCmp_eq_iff as bs]
      constructor
      · intro hc; rw [hc]
      · intro hc; injection hc
    · rw [if_neg (by omega), if_pos h]
      constructor
      · intro hc; cases hc
      · intro hc
        injection hc with h1 h2
        subst h1
        omega

theorem charsCmp_lt_trans :
    ∀ a b c : List Char, charsCmp a b = .lt → charsCmp b c = .lt →
      charsCmp a c = .lt
  | _, [], [] => by intro h1 h2; cases h2
  | _, _ :: _, [] => by intro h1 h2; cases h2
  | [], _, _ :: _ => by intro h1 h2; simp [charsCmp]
  | a :: as, [], c :: cs => by intro h1 h2; cases h1
  | a :: as, b :: bs, c :: cs => by
    intro h1 h2
    simp only [charsCmp] at h1 h2 ⊢
    by_cases hab : a.toNat < b.toNat
    · by_cases hbc : b.toNat < c.toNat
      · rw [if_pos (by omega)]
      · rw [if_neg hbc] at h2
        by_cases hcb : c.toNat < b.toNat
        · rw [if_pos hcb] at h2; cases h2
        · have : b.toNat = c.toNat := by omega
          rw [if_pos (by omega)]
    · rw [if_neg hab] at h1
      by_cases hba : b.toNat < a.toNat
      · rw [if_pos hba] at h1; cases h1
      · have heq : a.toNat = b.toNat := by omega
        by_cases hbc : b.toNat < c.toNat
        · rw [if_pos (by omega)]
        · rw [if_neg hbc] at h2
          by_cases hcb : c.toNat < b.toNat
          · rw [if_pos hcb] at h2; cases h2
          · rw [if_neg hba] at h1
            rw [if_neg hcb] at h2
            rw [if_neg (by omega), if_neg (by omega)]
            exact charsCmp_lt_trans as bs cs h1 h2

theorem charsCmp_ne_gt_trans {a b c : List Char}
    (h1 : charsCmp a b ≠ .gt) (h2 : charsCmp b c ≠ .gt) :
    charsCmp a c ≠ .gt := by
  rcases ne_gt_iff.mp h1 with h1 | h1 <;> rcases ne_gt_iff.mp h2 with h2 | h2
  · exact ne_gt_iff.mpr (Or.inl (charsCmp_lt_trans a b c h1 h2))
  · rw [(charsCmp_eq_iff b c).mp h2] at h1
    exact ne_gt_iff.mpr (Or.inl h1)
  · rw [← (charsCmp_eq_iff a b).mp h1] at h2
    exact ne_gt_iff.mpr (Or.inl h2)
  · rw [(charsCmp_eq_iff a b).mp h1]
    exact ne_gt_iff.mpr (Or.inr h2)

theorem natsCmp_swap : ∀ a b : List Nat, natsCmp b a = (natsCmp a b).swap
  | [], [] => rfl
  | [], _ :: _ => rfl
  | _ :: _, [] => rfl
  | a :: as, b :: bs => by
    simp only [natsCmp]
    rcases Nat.lt_trichotomy a b with h | h | h
    · rw [if_pos h, if_neg (by omega), if_pos h]
      rfl
    · rw [if_neg (by omega), if_neg (by omega), if_neg (by omega),
        if_neg (by omega)]
      exact natsCmp_swap as bs
    · rw [if_pos h, if_neg (by omega), if_pos h]
      rfl

theorem natsCmp_eq_iff : ∀ a b : List Nat, natsCmp a b = .eq ↔ a = b
  | [], [] => by simp [natsCmp]
  | [], _ :: _ => by simp [natsCmp]
  | _ :: _, [] => by simp [natsCmp]
  | a :: as, b :: bs => by
    simp only [natsCmp]
    rcases Nat.lt_trichotomy a b with h | h | h
    · rw [if_pos h]
      constructor
      · intro hc; cases hc
      · intro hc
        injection hc with h1 h2
        omega
    · subst h
      rw [if_neg (by omega), if_neg (by omega)]
      rw [natsCmp_eq_iff as bs]
      constructor
      · intro hc; rw [hc]
      · intro hc; injection hc
    · rw [if_neg (by omega), if_pos h]
      constructor
      · intro hc; cases hc
      · intro hc
        injection hc with h1 h2
        omega

theorem natsCmp_lt_trans :
    ∀ a b c : List Nat, natsCmp a b = .lt → natsCmp b c = .lt →
      natsCmp a c = .lt
  | _, [], [] => by intro h1 h2; cases h2
  | _, _ :: _, [] => by intro h1 h2; cases h2
  | [], _, _ :: _ => by intro h1 h2; simp [natsCmp]
  | a :: as, [], c :: cs => by intro h1 h2; cases h1
  | a :: as, b :: bs, c :: cs => by
    intro h1 h2
    simp only [natsCmp] at h1 h2 ⊢
    by_cases hab : a < b
    · by_cases hbc : b < c
      · rw [if_pos (by omega)]
      · rw [if_neg hbc] at h2
        by_cases hcb : c < b
        · rw [if_pos hcb] at h2; cases h2
        · rw [if_pos (by omega)]
    · rw [if_neg hab] at h1
      by_cases hba : b < a
      · rw [if_pos hba] at h1; cases h1
      · by_cases hbc : b < c
        · rw [if_pos (by omega)]
        · rw [if_neg hbc] at h2
          by_cases hcb : c < b
          · rw [if_pos hcb] at h2; cases h2
          · rw [if_neg hba] at h1
            rw [if_neg hcb] at h2
            rw [if_neg (by omega), if_neg (by omega)]
            exact natsCmp_lt_trans as bs cs h1 h2

theorem localeCmp_swap (a b : String) :
    localeCmp b a = (localeCmp a b).swap := by
  unfold localeCmp
  rw [then_swap, natsCmp_swap, charsCmp_swap (b.data) (a.data)]

theorem localeCmp_ne_gt_trans {a b c : String}
    (h1 : localeCmp a b ≠ .gt) (h2 : localeCmp b c ≠ .gt) :
    localeCmp a c ≠ .gt := by
  unfold localeCmp at h1 h2 ⊢
  rcases then_ne_gt.mp h1 with hp1 | ⟨hp1, hs1⟩ <;>
    rcases then_ne_gt.mp h2 with hp2 | ⟨hp2, hs2⟩
  · exact then_ne_gt.mpr (Or.inl (natsCmp_lt_trans _ _ _ hp1 hp2))
  · rw [(natsCmp_eq_iff _ _).mp hp2] at hp1
    exact then_ne_gt.mpr (Or.inl hp1)
  · rw [← (natsCmp_eq_iff _ _).mp hp1] at hp2
    exact then_ne_gt.mpr (Or.inl hp2)
  · refine then_ne_gt.mpr (Or.inr ⟨?_, ?_⟩)
    · rw [(natsCmp_eq_iff _ _).mp hp1]
      exact hp2
    · exact charsCmp_ne_gt_trans hs2 hs1

theorem cmpF_swap (a b : FileInfo) : cmpF b a = (cmpF a b).swap := by
  unfold cmpF
  cases ha : a.isDirectory <;> cases hb : b.isDirectory
  · simpa using localeCmp_swap a.name b.name
  · rfl
  · rfl
  · simpa using localeCmp_swap a.name b.name

instance : IsTotal FileInfo leF := by
  constructor
  intro a b
  by_cases h : cmpF a b = .gt
  · right
    unfold leF
    rw [cmpF_swap, h]
    decide
  · exact Or.inl h

instance : IsTrans FileInfo leF := by
  constructor
  intro a b c h1 h2
  unfold leF cmpF at h1 h2 ⊢
  cases ha : a.isDirectory <;> cases hb : b.isDirectory <;>
    cases hc : c.isDirectory <;>
    rw [ha] at h1 <;> rw [hb] at h1 h2 <;> rw [hc] at h2 <;>
    simp_all
  · exact localeCmp_ne_gt_trans h1 h2
  · exact localeCmp_ne_gt_trans h1 h2

theorem leF_entryOrderedLoc {a b : FileInfo} (h : leF a b) :
    entryOrderedLoc a b := by
  unfold leF cmpF at h
  constructor
  · intro hb
    by_contra ha
    have ha2 : a.isDirectory = false := by
      cases hval : a.isDirectory
      · rfl
      · exact absurd hval ha
    rw [ha2, hb] at h
    simp at h
  · intro hsame
    cases ha : a.isDirectory <;> rw [ha] at hsame h <;>
      rw [← hsame] at h <;> simpa using h

/-- The primary level of the modelled collation ignores ASCII letter
case: lowercasing a character changes no collation weight. -/
theorem charWeight_ascii_fold :
    ∀ n : Nat, n < 128 →
      charWeight (Char.toLower (Char.ofNat n)) = charWeight (Char.ofNat n) := by
  decide

/-- `Bun.write` on a path occupied by a directory throws. -/
theorem writeFile_dirAt {fs : FSNode} {p : List String}
    (h : dirAt fs p = true) (sz now : Nat) : writeFile fs p sz now = none := by
  induction p generalizing fs with
  | nil => cases fs <;> rfl
  | cons s rest ih =>
    cases fs with
    | file sz2 b => simp [dirAt, look] at h
    | dir b r ch =>
      obtain ⟨c, hg, hc⟩ := dirAt_cons h
      cases rest with
      | nil =>
        obtain ⟨b2, r2, ch2, rfl⟩ :
            ∃ b2 r2 ch2, c = FSNode.dir b2 r2 ch2 := by
          cases c with
          | file _ _ => simp [dirAt, look] at hc
          | dir b2 r2 ch2 => exact ⟨b2, r2, ch2, rfl⟩
        simp [writeFile, hg]
      | cons t ts =>
        simp only [writeFile, hg]
        rw [ih hc]

theorem mkInfo_name (sub n : String) (node : FSNode) :
    (mkInfo sub n node).name = n := by
  cases node <;> rfl

theorem mkInfo_path (sub n : String) (node : FSNode) :
    (mkInfo sub n node).path = if sub = "" then n else sub ++ "/" ++ n := by
  cases node <;> rfl

/-! ### Claim C2 -/

/-- Claim C2, counterexample: the sanitizer maps the segment `..` to
itself, not to `__` — `.` is inside the allowed class `[A-Za-z0-9._-]` —
and consequently the sanitized form of the client path `../x` still
splits into a leading `..` segment. -/
theorem C2_counterexample :
    sanitizeSegment ".." = ".." ∧ sanitizeSegment ".." ≠ "__" ∧
    splitOnChar '/' (sanitizePath "../x") = ["..", "x"] := by
  refine ⟨rfl, by decide, rfl⟩

/-- Claim C2, amended: the sanitizer rewrites only characters outside
`[A-Za-z0-9._-]`; a segment made of allowed characters — in particular
the segment `..` — is returned unchanged, so a sanitized-and-rejoined
relative path can still contain `..` segments and joining it onto the
root can escape the root. -/
theorem C2_sanitize_fixes_allowed (s : String)
    (h : s.data.all allowedChar = true) : sanitizeSegment s = s :=
  sanitizeSegment_of_allowed h

/-- Witness for C2's amended theorem at the segment `..`. -/
theorem C2_sanitize_fixes_allowed_witness :
    ("..".data.all allowedChar = true) ∧ sanitizeSegment ".." = ".." :=
  ⟨by decide, C2_sanitize_fixes_allowed ".." (by decide)⟩

/-! ### Claim C4 -/

/-- Claim C4, counterexample: `saveFile` is an operation that requires a
non-empty target, yet with a name sanitizing to empty it is not rejected
with `InvalidPath`: nothing checks the name, the target directory is
created first — `newdir` does not exist before the call and exists after
it, a filesystem mutation — and then the write to the directory path
fails with a generic error. -/
theorem C4_counterexample :
    look plainFS ["d", "newdir"] = none ∧
    saveFile ["d"] plainFS 9 "" 5 "newdir" = (plainFSNewdir, .error ()) ∧
    look plainFSNewdir ["d", "newdir"] = some (.dir 0 true []) :=
  ⟨rfl, rfl, rfl⟩

/-- Claim C4, amended: only the create-folder operation rejects an empty
target.  Its route handler turns a requested name that sanitizes to
empty (equivalently, by the length-preserving sanitizer, an empty name)
into the `InvalidPath` rejection — the 400 response — before any
filesystem call, so no mutation happens there.  `saveFile` has no such
check: with a name sanitizing to empty it first creates the target
directory (a mutation) and then fails with a generic write error when
writing to the directory path itself. -/
theorem C4_empty_name_spec :
    (∀ (root : List String) (fs : FSNode) (name subPath : String),
      sanitizeSegment name = "" →
      handleCreateFolder root fs name subPath = .error .invalidPath) ∧
    (∀ (root : List String) (fs fs1 fs2 : FSNode) (now : Nat)
      (name : String) (dataLen : Nat) (subPath : String),
      sanitizeSegment name = "" →
      ensureDataDir root fs = some fs1 →
      mkdirp fs1 (if subPath = "" then root else joinPath root subPath) =
        some fs2 →
      saveFile root fs now name dataLen subPath = (fs2, .error ())) := by
  constructor
  · intro root fs name subPath h
    have hname : name = "" := sanitizeSegment_empty_iff.mp h
    subst hname
    rfl
  · intro root fs fs1 fs2 now name dataLen subPath h hens hmk
    have hname : name = "" := sanitizeSegment_empty_iff.mp h
    subst hname
    unfold saveFile
    simp only [hens, hmk]
    have hdir : dirAt fs2
        (if subPath = "" then root else joinPath root subPath) = true :=
      dirAt_mkdirp hmk
    have hjoin : joinPath
        (if subPath = "" then root else joinPath root subPath)
        (sanitizeSegment "") =
        (if subPath = "" then root else joinPath root subPath) := rfl
    rw [hjoin, writeFile_dirAt hdir]

/-- Witness for C4's amended theorem: the empty name at both operations. -/
theorem C4_empty_name_spec_witness :
    handleCreateFolder ["srv", "data"] smallFS "" "sub" = .error .invalidPath ∧
    saveFile ["d"] plainFS 9 "" 5 "newdir" = (plainFSNewdir, .error ()) :=
  ⟨C4_empty_name_spec.1 ["srv", "data"] smallFS "" "sub" rfl,
    C4_empty_name_spec.2 ["d"] plainFS plainFS plainFSNewdir 9 "" 5 "newdir"
      rfl rfl rfl⟩

/-! ### Claim C8 -/

/-- Claim C8: with a populated cache, `saveConfig` merges the update over
the current configuration, persists the full merged object to disk,
caches it and returns it; when the underlying write fails the error is
surfaced and the state — in particular the in-memory cache — is left
unchanged. -/
theorem C8_saveConfig_spec (s : ConfigState) (p : ConfigPatch) (c : Config)
    (h : s.cache = some c) :
    saveConfig true s p =
      ({ cache := some (mergeConfig c p), disk := some (toDisk (mergeConfig c p)) },
        .ok (mergeConfig c p)) ∧
    saveConfig false s p = (s, .error ()) := by
  unfold saveConfig loadConfig
  rw [h]
  exact ⟨rfl, rfl⟩

/-- Witness for C8 at a concrete populated state and update. -/
theorem C8_saveConfig_spec_witness :
    saveConfig true ⟨some ⟨[⟨"A", "/a"⟩], 0⟩, none⟩ ⟨some [⟨"X", "/x"⟩], none⟩ =
      ({ cache := some (mergeConfig ⟨[⟨"A", "/a"⟩], 0⟩ ⟨some [⟨"X", "/x"⟩], none⟩),
          disk := some (toDisk (mergeConfig ⟨[⟨"A", "/a"⟩], 0⟩ ⟨some [⟨"X", "/x"⟩], none⟩)) },
        .ok (mergeConfig ⟨[⟨"A", "/a"⟩], 0⟩ ⟨some [⟨"X", "/x"⟩], none⟩)) ∧
    saveConfig false ⟨some ⟨[⟨"A", "/a"⟩], 0⟩, none⟩ ⟨some [⟨"X", "/x"⟩], none⟩ =
      (⟨some ⟨[⟨"A", "/a"⟩], 0⟩, none⟩, .error ()) :=
  C8_saveConfig_spec ⟨some ⟨[⟨"A", "/a"⟩], 0⟩, none⟩ ⟨some [⟨"X", "/x"⟩], none⟩
    ⟨[⟨"A", "/a"⟩], 0⟩ rfl

/-! ### Claim C9 -/

/-- Claim C9: after a successful `saveConfig`, reloading with an empty
cache (a process restart) from the disk state the save produced returns
exactly the merged configuration the save returned, and re-caches it. -/
theorem C9_config_round_trip (w : Bool) (s s1 : ConfigState)
    (p : ConfigPatch) (m : Config)
    (h : saveConfig true s p = (s1, .ok m)) :
    loadConfig w { cache := none, disk := s1.disk } =
      ({ cache := some m, disk := s1.disk }, m) := by
  unfold saveConfig at h
  simp only [if_pos] at h
  have hs1 : s1 =
      ⟨some (mergeConfig (loadConfig true s).2 p),
        some (toDisk (mergeConfig (loadConfig true s).2 p))⟩ :=
    (congrArg Prod.fst h).symm
  have hm : mergeConfig (loadConfig true s).2 p = m := by
    have h2 := congrArg Prod.snd h
    simpa using h2
  subst hm
  rw [hs1]
  unfold loadConfig
  simp only [toDisk, Option.getD_some]

/-- Witness for C9 at a concrete save from the empty state. -/
theorem C9_config_round_trip_witness :
    loadConfig false
        { cache := none,
          disk := (saveConfig true ⟨none, none⟩ ⟨some [⟨"X", "/x"⟩], none⟩).1.disk } =
      ({ cache := some ⟨[⟨"X", "/x"⟩], 0⟩,
          disk := (saveConfig true ⟨none, none⟩ ⟨some [⟨"X", "/x"⟩], none⟩).1.disk },
        ⟨[⟨"X", "/x"⟩], 0⟩) :=
  C9_config_round_trip false ⟨none, none⟩
    (saveConfig true ⟨none, none⟩ ⟨some [⟨"X", "/x"⟩], none⟩).1
    ⟨some [⟨"X", "/x"⟩], none⟩ ⟨[⟨"X", "/x"⟩], 0⟩ rfl

/-! ### Claim C10 -/

/-- Claim C10: when the (sanitized, resolved) source of `moveFile` is an
existing directory, the `Bun.file(...).exists()` check reports `false`,
so `moveFile` returns `false` and the filesystem stays exactly as
`ensureDataDir` left it: no destination directories are created, nothing
is copied and nothing is removed. -/
theorem C10_moveFile_dir_source (root : List String) (fs fs1 : FSNode)
    (now : Nat) (src dst : String) (b : Nat) (r : Bool)
    (ch : List (String × FSNode))
    (h1 : ensureDataDir root fs = some fs1)
    (h2 : look fs1 (joinPath root (sanitizePath src)) = some (.dir b r ch)) :
    moveFile root fs now src dst = .ok (fs1, false) := by
  unfold moveFile
  rw [h1]
  simp only [h2]

/-- Witness for C10: moving the directory `data` itself. -/
theorem C10_moveFile_dir_source_witness :
    ensureDataDir ["srv"] smallFS = some smallFS ∧
    moveFile ["srv"] smallFS 7 "data" "archive/data" = .ok (smallFS, false) :=
  ⟨rfl, C10_moveFile_dir_source ["srv"] smallFS smallFS 7 "data" "archive/data"
    0 true [("f.txt", .file 3 5)] rfl rfl⟩

/-! ### Claim C1 -/

/-- Claim C1 fails on the code: with active root `/srv/data`, the client
path `../secret.txt` survives per-segment sanitization unchanged (`.` is
an allowed character), resolves to `/srv/secret.txt` — not a descendant
of the root — and `deleteFile` removes that outside file and reports
success; `listFiles ".."` likewise lists the root's parent directory.
(`listFiles`, `saveFile` and `createFolder` do not sanitize their path
parameter at all.) -/
theorem C1_traversal_escape_eval :
    isUnder ["srv", "data"]
        (joinPath ["srv", "data"] (sanitizePath "../secret.txt")) = false ∧
    deleteFile ["srv", "data"] hostFS "../secret.txt" =
      .ok (hostFSNoSecret, true) ∧
    (listFiles ["srv", "data"] hostFS "..").map
        (fun r => r.2.map (fun e => e.name)) =
      .ok ["data", "secret.txt"] :=
  ⟨by decide, rfl, rfl⟩

/-! ### Claim C5 -/

/-- Claim C5, counterexample: `listFiles` can propagate a failure.  When
a regular file occupies the configured root path, `ensureDataDir`'s
`mkdir(root, { recursive: true })` — which sits outside the
`try`/`catch` — throws, and `listFiles` raises even though the resolved
target simply does not exist. -/
theorem C5_counterexample :
    listFiles ["d"] rootFileFS "x" = .error () ∧
    look rootFileFS ["d", "x"] = none :=
  ⟨rfl, rfl⟩

/-- Claim C5, amended: the `try`/`catch` of `listFiles` swallows every
failure on the resolved target — missing, not a directory, or an
unreadable directory — into the empty listing, and given a usable root
`listFiles` always returns a result; but a failure of `ensureDataDir`'s
`mkdir` of the root itself happens outside the `try`/`catch` and
propagates to the caller. -/
theorem C5_listFiles_spec (root : List String) (fs : FSNode)
    (sub : String) :
    (ensureDataDir root fs = none → listFiles root fs sub = .error ()) ∧
    (∀ fs1, ensureDataDir root fs = some fs1 →
      (∃ l, listFiles root fs sub = .ok (fs1, l)) ∧
      (readableDirAt fs1 (joinPath root sub) = false →
        listFiles root fs sub = .ok (fs1, []))) := by
  constructor
  · intro h
    unfold listFiles
    simp only [h]
  · intro fs1 h
    unfold listFiles
    simp only [h]
    cases hl : look fs1 (joinPath root sub) with
    | none => exact ⟨⟨[], rfl⟩, fun _ => rfl⟩
    | some node =>
      cases node with
      | file sz b => exact ⟨⟨[], rfl⟩, fun _ => rfl⟩
      | dir b r ch =>
        cases r with
        | false => exact ⟨⟨[], rfl⟩, fun _ => rfl⟩
        | true =>
          refine ⟨⟨_, rfl⟩, fun hbad => ?_⟩
          unfold readableDirAt at hbad
          rw [hl] at hbad
          cases hbad

/-- Witness for C5's amended theorem: the blocked root propagates, the
missing target under a healthy root yields the empty listing. -/
theorem C5_listFiles_spec_witness :
    listFiles ["d"] rootFileFS "x" = .error () ∧
    listFiles ["srv", "data"] smallFS "nothing/here" = .ok (smallFS, []) :=
  ⟨(C5_listFiles_spec ["d"] rootFileFS "x").1 rfl,
    ((C5_listFiles_spec ["srv", "data"] smallFS "nothing/here").2
      smallFS rfl).2 rfl⟩

/-! ### Claim C7 -/

/-- Claim C7, counterexample: deleting the same path twice does not
always return `true` then `false`.  The empty relative path resolves to
the active root itself, which `ensureDataDir` re-creates before every
call, so `deleteFile ""` removes the root directory and returns `true`
every time. -/
theorem C7_counterexample :
    deleteFile ["srv", "data"] smallFS "" = .ok (smallFSNoRoot, true) ∧
    deleteFile ["srv", "data"] smallFSNoRoot "" = .ok (smallFSNoRoot, true) :=
  ⟨rfl, rfl⟩

/-- Claim C7, amended: provided the root can be ensured, `deleteFile`
returns a boolean and never throws: `true` exactly when something is at
the sanitized resolved path (the node — file or directory — is then
removed), `false` when nothing is there.  For a target that is a proper
descendant of the root, deleting the same path twice therefore returns
`true` then `false`; a path resolving to the root itself is exempt,
since `ensureDataDir` re-creates the root before each call. -/
theorem C7_deleteFile_spec (root : List String) (fs fs1 : FSNode)
    (p : String) (q : List String)
    (hq : q = joinPath root (sanitizePath p))
    (h1 : ensureDataDir root fs = some fs1) :
    (∀ node, look fs1 q = some node →
      deleteFile root fs p = .ok (removeAt fs1 q, true)) ∧
    (look fs1 q = none → deleteFile root fs p = .ok (fs1, false)) ∧
    (∀ node, look fs1 q = some node → isUnder root q = true → q ≠ root →
      deleteFile root (removeAt fs1 q) p = .ok (removeAt fs1 q, false)) := by
  subst hq
  refine ⟨?_, ?_, ?_⟩
  · intro node hnode
    unfold deleteFile
    simp only [h1, hnode]
    cases node <;> rfl
  · intro hnone
    unfold deleteFile
    simp only [h1, hnone]
  · intro node hnode hun hne
    obtain ⟨t, ht⟩ :=
      (isUnder_iff_exists root (joinPath root (sanitizePath p))).mp hun
    have htne : t ≠ [] := by
      intro h0
      apply hne
      rw [ht, h0, List.append_nil]
    have hd1 : dirAt fs1 root = true := dirAt_mkdirp h1
    have hd2 : dirAt (removeAt fs1 (joinPath root (sanitizePath p))) root = true := by
      rw [ht]
      exact dirAt_removeAt_append hd1 htne
    have hm2 : ensureDataDir root (removeAt fs1 (joinPath root (sanitizePath p))) =
        some (removeAt fs1 (joinPath root (sanitizePath p))) :=
      mkdirp_of_dirAt hd2
    have hqq : joinPath root (sanitizePath p) ≠ [] := by
      rw [ht]
      intro h0
      rcases List.append_eq_nil.mp h0 with ⟨_, h2⟩
      exact htne h2
    have hlook : look (removeAt fs1 (joinPath root (sanitizePath p)))
        (joinPath root (sanitizePath p)) = none :=
      look_removeAt_self fs1 _ hqq
    unfold deleteFile
    simp only [hm2, hlook]

/-- Witness for C7's amended theorem: deleting `f.txt` under the root
twice returns `true` then `false`. -/
theorem C7_deleteFile_spec_witness :
    deleteFile ["srv", "data"] smallFS "f.txt" =
      .ok (removeAt smallFS ["srv", "data", "f.txt"], true) ∧
    deleteFile ["srv", "data"]
        (removeAt smallFS ["srv", "data", "f.txt"]) "f.txt" =
      .ok (removeAt smallFS ["srv", "data", "f.txt"], false) :=
  ⟨(C7_deleteFile_spec ["srv", "data"] smallFS smallFS "f.txt"
      ["srv", "data", "f.txt"] rfl rfl).1 (.file 3 5) rfl,
    (C7_deleteFile_spec ["srv", "data"] smallFS smallFS "f.txt"
      ["srv", "data", "f.txt"] rfl rfl).2.2 (.file 3 5) rfl (by decide)
      (by decide)⟩

/-! ### Claim C6 -/

/-- Claim C6, counterexample: within a group the listing is *not* in
case-insensitive (lowercased code-point) name order.  Under the default
collation that `localeCompare` uses, punctuation sorts before digits, so
the program lists `a_1.txt` before `a11.txt`, while the lowercased names
compare the other way around (`_` is above the digits in code-point
order). -/
theorem C6_counterexample :
    (listFiles ["d"] punctFS "").map (fun r => r.2.map (fun e => e.name)) =
      .ok ["a_1.txt", "a11.txt"] ∧
    charsCmp (lowerStr "a_1.txt").data (lowerStr "a11.txt").data = .gt :=
  ⟨by rfl, by rfl⟩

/-- Claim C6, amended: every listing excludes the reserved `.gitkeep`
entry and is ordered with all directories before all files; within each
group names are in the order of `localeCompare`'s default collation,
whose primary level is case-insensitive (lowercasing a character never
changes its collation weight) but is not the code-point order of the
lowercased names — punctuation such as `_` sorts before digits and
before letters. -/
theorem C6_listing_order_amended (root : List String) (fs fs1 : FSNode)
    (sub : String) (l : List FileInfo)
    (h : listFiles root fs sub = .ok (fs1, l)) :
    (∀ e ∈ l, e.name ≠ ".gitkeep") ∧ l.Pairwise entryOrderedLoc ∧
    (∀ n : Nat, n < 128 →
      charWeight (Char.toLower (Char.ofNat n)) = charWeight (Char.ofNat n)) := by
  refine ⟨?_, ?_, charWeight_ascii_fold⟩ <;>
    (unfold listFiles at h
     split at h)
  · cases h
  · dsimp only at h
    split at h
    · injection h with h2
      injection h2 with h3 h4
      subst h4
      intro e he
      have he2 := (List.mem_insertionSort leF).mp he
      obtain ⟨pr, hpr, hmk⟩ := List.mem_map.mp he2
      have hflt := List.mem_filter.mp hpr
      have hne : pr.1 ≠ ".gitkeep" := of_decide_eq_true hflt.2
      rw [← hmk, mkInfo_name]
      exact hne
    · injection h with h2
      injection h2 with h3 h4
      subst h4
      exact fun e he => absurd he (List.not_mem_nil e)
  · cases h
  · dsimp only at h
    split at h
    · injection h with h2
      injection h2 with h3 h4
      subst h4
      exact List.Pairwise.imp (fun hab => leF_entryOrderedLoc hab)
        (List.sorted_insertionSort leF _)
    · injection h with h2
      injection h2 with h3 h4
      subst h4
      exact List.Pairwise.nil

/-- Witness for C6's amended theorem on a listing mixing cases, kinds,
punctuation-digit names and a `.gitkeep`. -/
theorem C6_listing_order_amended_witness :
    (∀ e ∈
      [ ({ name := "apple", size := 0, createdAt := 3, type := "folder",
           isDirectory := true, path := "apple" } : FileInfo),
        { name := "Zebra", size := 0, createdAt := 2, type := "folder",
          isDirectory := true, path := "Zebra" },
        { name := "a_1.txt", size := 6, createdAt := 6, type := "document",
          isDirectory := false, path := "a_1.txt" },
        { name := "a11.txt", size := 5, createdAt := 5, type := "document",
          isDirectory := false, path := "a11.txt" },
        { name := "Ant.txt", size := 4, createdAt := 4, type := "document",
          isDirectory := false, path := "Ant.txt" },
        { name := "bee.txt", size := 1, createdAt := 1, type := "document",
          isDirectory := false, path := "bee.txt" } ], e.name ≠ ".gitkeep") ∧
    List.Pairwise entryOrderedLoc
      [ ({ name := "apple", size := 0, createdAt := 3, type := "folder",
           isDirectory := true, path := "apple" } : FileInfo),
        { name := "Zebra", size := 0, createdAt := 2, type := "folder",
          isDirectory := true, path := "Zebra" },
        { name := "a_1.txt", size := 6, createdAt := 6, type := "document",
          isDirectory := false, path := "a_1.txt" },
        { name := "a11.txt", size := 5, createdAt := 5, type := "document",
          isDirectory := false, path := "a11.txt" },
        { name := "Ant.txt", size := 4, createdAt := 4, type := "document",
          isDirectory := false, path := "Ant.txt" },
        { name := "bee.txt", size := 1, createdAt := 1, type := "document",
          isDirectory := false, path := "bee.txt" } ] ∧
    (∀ n : Nat, n < 128 →
      charWeight (Char.toLower (Char.ofNat n)) = charWeight (Char.ofNat n)) :=
  C6_listing_order_amended ["d"] collationFS collationFS ""
    [ { name := "apple", size := 0, createdAt := 3, type := "folder",
        isDirectory := true, path := "apple" },
      { name := "Zebra", size := 0, createdAt := 2, type := "folder",
        isDirectory := true, path := "Zebra" },
      { name := "a_1.txt", size := 6, createdAt := 6, type := "document",
        isDirectory := false, path := "a_1.txt" },
      { name := "a11.txt", size := 5, createdAt := 5, type := "document",
        isDirectory := false, path := "a11.txt" },
      { name := "Ant.txt", size := 4, createdAt := 4, type := "document",
        isDirectory := false, path := "Ant.txt" },
      { name := "bee.txt", size := 1, createdAt := 1, type := "document",
        isDirectory := false, path := "bee.txt" } ] (by rfl)

/-! ### Claim C3 -/

/-- Claim C3, counterexample: `listFiles` surfaces on-disk entry names
verbatim — no sanitization happens on the read path — so a directory
entry whose name holds a space yields an `Entry` whose `name` violates
the `[A-Za-z0-9._-]` invariant. -/
theorem C3_counterexample :
    (listFiles ["d"] oddNameFS "").map (fun r => r.2.map (fun e => e.name)) =
      .ok ["a b.txt"] ∧
    ("a b.txt".data.all allowedChar) = false :=
  ⟨by rfl, by decide⟩

/-- Claim C3, amended: each listed `Entry` carries the on-disk entry name
verbatim, with `path` equal to the requested sub-path joined with that
name.  The data-model invariant therefore holds exactly when the on-disk
names use only `[A-Za-z0-9._-]` characters (and are not `..`) and the
requested sub-path contains no `..` segment: then every `name` is within
the allowed alphabet, every `path` is free of `..` segments, and every
`path` resolves inside the active root's subtree. -/
theorem C3_listing_invariant (root : List String) (fs fs1 : FSNode)
    (sub : String) (l : List FileInfo)
    (h : listFiles root fs sub = .ok (fs1, l))
    (hn : ∀ b r ch, look fs1 (joinPath root sub) = some (.dir b r ch) →
      ∀ pr ∈ ch, pr.1.data.all allowedChar = true ∧ pr.1 ≠ "..")
    (hs : ∀ seg ∈ splitOnChar '/' sub, seg ≠ "..") :
    ∀ e ∈ l, e.name.data.all allowedChar = true ∧
      (∀ seg ∈ splitOnChar '/' e.path, seg ≠ "..") ∧
      isUnder root (joinPath root e.path) = true := by
  unfold listFiles at h
  split at h
  · cases h
  · dsimp only at h
    split at h
    · rename_i xq bq chq hlook
      injection h with h2
      injection h2 with h3 h4
      subst h3
      subst h4
      intro e he
      have he2 := (List.mem_insertionSort leF).mp he
      obtain ⟨pr, hpr, hmk⟩ := List.mem_map.mp he2
      have hin : pr ∈ chq := (List.mem_filter.mp hpr).1
      obtain ⟨hall, hnotdd⟩ := hn bq true chq hlook pr hin
      have hnoslash : ∀ c ∈ pr.1.data, c ≠ '/' := fun c hc =>
        allowedChar_ne_slash (List.all_eq_true.mp hall c hc)
      have hsegs : ∀ seg ∈ splitOnChar '/' e.path, seg ≠ ".." := by
        rw [← hmk, mkInfo_path]
        by_cases hsub : sub = ""
        · rw [if_pos hsub]
          rw [splitOnChar_no_sep '/' pr.1 hnoslash]
          intro seg hseg
          rw [List.mem_singleton] at hseg
          subst hseg
          exact hnotdd
        · rw [if_neg hsub]
          have hshape : sub ++ "/" ++ pr.1 =
              sub ++ String.singleton '/' ++ pr.1 := rfl
          rw [hshape, splitOnChar_append_of_no_sep '/' sub pr.1 hnoslash]
          intro seg hseg
          rcases List.mem_append.mp hseg with hseg | hseg
          · exact hs seg hseg
          · rw [List.mem_singleton] at hseg
            subst hseg
            exact hnotdd
      refine ⟨?_, hsegs, ?_⟩
      · rw [← hmk, mkInfo_name]
        exact hall
      · exact isUnder_foldl_stepSeg (splitOnChar '/' e.path) hsegs root
          (isUnder_refl root)
    · injection h with h2
      injection h2 with h3 h4
      subst h4
      intro e he
      exact absurd he (List.not_mem_nil e)

/-- Witness for C3's amended theorem on a well-named root listing. -/
theorem C3_listing_invariant_witness :
    "f.txt".data.all allowedChar = true ∧
    isUnder ["srv", "data"] (joinPath ["srv", "data"] "f.txt") = true := by
  have h := C3_listing_invariant ["srv", "data"] smallFS smallFS ""
    [ { name := "f.txt", size := 3, createdAt := 5, type := "document",
        isDirectory := false, path := "f.txt" } ] (by rfl)
    (by
      intro b r ch hlook pr hpr
      have hch : FSNode.dir 0 true [("f.txt", FSNode.file 3 5)] =
          FSNode.dir b r ch := by
        injection hlook
      injection hch with hb hr hc
      subst hc
      rw [List.mem_singleton] at hpr
      subst hpr
      exact ⟨by decide, by decide⟩)
    (by decide)
    { name := "f.txt", size := 3, createdAt := 5, type := "document",
      isDirectory := false, path := "f.txt" }
    (List.mem_singleton_self _)
  exact ⟨h.1, h.2.2⟩

end FM
